import Mathlib

/-!
Shallow embedding of `photo_frame_sync.py`: a batch sync engine that discovers
image files in a source directory, skips those already recorded in a SQLite
table (`sent_photos`), emails the rest one by one, and records each confirmed
delivery.  Filenames are modelled as Lean `String`s (Python compares strings
by code point, as does the lexicographic order defined below).  The durable
SQLite table is modelled as a `List String` of its rows: every statement runs
inside `with conn:` (a transaction committed on scope exit), so the in-memory
connection view and the on-disk table coincide after every store operation.

External effects are modelled by oracles:
* `transport : String → SendOutcome` gives, per filename, the behaviour of
  `send_photo_via_email` (either the SMTP send completes, or some exception —
  `OSError` from reading the file, `smtplib.SMTPException`, etc. — is raised);
* `markOutcome : String → Option String` gives, per filename, whether the
  `INSERT` inside `mark_as_sent` raises (`some errorMessage`) or commits
  (`none`).  A raising `INSERT` rolls its transaction back, leaving the table
  unchanged.
-/

namespace PhotoSync

/-- Lexicographic comparison of character lists by code point, the order
the Python builtin sorted uses on str values (and on Path values inside a single directory,
where comparison reduces to the filename). -/
def lex_le : List Char → List Char → Bool
  | [], _ => true
  | _ :: _, [] => false
  | a :: as, b :: bs =>
      if a.toNat < b.toNat then true
      else if b.toNat < a.toNat then false
      else lex_le as bs

/-- String comparison by code points, the order Python uses on str values. -/
def str_le (a b : String) : Bool := lex_le a.data b.data

/-- Stable insertion of a filename into an already sorted list. -/
def insert_sorted (f : String) : List String → List String
  | [] => [f]
  | g :: gs => if str_le f g then f :: g :: gs else g :: insert_sorted f gs

/-- Model of the Python builtin sorted on a list of filenames: a stable sort by
`str_le`.  Python uses Timsort; any stable sort computes the same list, and
for strings (where items comparing equal are identical) stability is even
irrelevant to the result. -/
def sort_by_name (l : List String) : List String := l.foldr insert_sorted []

/-- Code-point equality of character lists. -/
def chars_eq : List Char → List Char → Bool
  | [], [] => true
  | a :: as, b :: bs => a.toNat == b.toNat && chars_eq as bs
  | _, _ => false

/-- The fnmatch pattern `*.ext` used by `Path.glob("*.jpg")` etc.: `*`
matches any (possibly empty) sequence of characters, so the pattern matches
a filename exactly when the filename ends with the literal suffix. -/
def ends_with (s suf : String) : Bool :=
  chars_eq (s.data.drop (s.data.length - suf.data.length)) suf.data
    && Nat.ble suf.data.length s.data.length

/-- Model of `PHOTO_DIR.glob(pattern)`: the source directory is
`Option (List String)` — `none` when the directory does not exist or is not
readable, `some files` its entries otherwise.  `Path.glob` raises nothing for
a missing directory (the pathlib selector returns an empty iterator when the
parent is not a directory, and swallows `PermissionError`), so the result of
`sorted(PHOTO_DIR.glob("*.ext"))` is the empty list in the `none` case and
the sorted matching entries otherwise.  The fnmatch pattern `*.ext` matches a
filename exactly when it ends with `.ext`. -/
def glob_sorted (dir : Option (List String)) (ext : String) : List String :=
  match dir with
  | none => []
  | some files => sort_by_name (files.filter (fun f => ends_with f ext))

/-- The discovery phase of `sync_photos` (lines 122–126):
`sorted(glob("*.jpg")) + sorted(glob("*.jpeg")) + sorted(glob("*.png")) +
sorted(glob("*.gif")) + sorted(glob("*.heic"))`. -/
def sync_discover (dir : Option (List String)) : List String :=
  glob_sorted dir ".jpg" ++ glob_sorted dir ".jpeg" ++ glob_sorted dir ".png"
    ++ glob_sorted dir ".gif" ++ glob_sorted dir ".heic"

/-- `init_db`: `CREATE TABLE IF NOT EXISTS sent_photos` — on a fresh database
file the table starts empty, otherwise the existing rows are kept.  The
durable database file is `Option (List String)`: `none` when the file does
not yet exist. -/
def init_db (disk : Option (List String)) : List String :=
  match disk with
  | none => []
  | some rows => rows

/-- `has_been_sent`: `SELECT 1 FROM sent_photos WHERE filename = ?` — true
iff the filename is a row of the table. -/
def has_been_sent (store : List String) (filename : String) : Bool :=
  store.contains filename

/-- `mark_as_sent`: `INSERT OR IGNORE INTO sent_photos (filename) VALUES (?)`
— appends the row unless it is already present (filename is the primary key,
and `OR IGNORE` turns the duplicate-key failure into a no-op). -/
def mark_as_sent (store : List String) (filename : String) : List String :=
  if store.contains filename then store else store ++ [filename]

/-- Outcome of one `send_photo_via_email(photo)` call: either the message is
delivered (the function prints `Sent: ...` with the filename and returns), or some exception
with message `e` is raised (file read failure, SMTP/auth/network failure,
rejection by the destination). -/
inductive SendOutcome where
  | delivered : SendOutcome
  | raised (e : String) : SendOutcome
deriving DecidableEq

/-- Observable state of one run of `sync_photos`: the `sent_photos` table,
the lines printed so far, and the trace of filenames passed to
`send_photo_via_email` (each call appends its argument). -/
structure RunState where
  store : List String
  log : List String
  sendCalls : List String
deriving DecidableEq

/-- One iteration of the loop in `sync_photos` (lines 129–135):
skip the photo if `has_been_sent`; otherwise call `send_photo_via_email`
and then `mark_as_sent`, with `except Exception` catching any exception
from either call and printing a `Failed to send ...` line with the filename and message.  When the send
succeeds but the `INSERT` raises, `Sent: ...` with the filename has already been printed
and the rolled-back transaction leaves the table unchanged. -/
def sync_step (transport : String → SendOutcome) (markOutcome : String → Option String)
    (st : RunState) (photo : String) : RunState :=
  if has_been_sent st.store photo then st
  else
    match transport photo with
    | SendOutcome.raised e =>
        { store := st.store
          log := st.log ++ ["Failed to send " ++ photo ++ ": " ++ e]
          sendCalls := st.sendCalls ++ [photo] }
    | SendOutcome.delivered =>
        match markOutcome photo with
        | some e =>
            { store := st.store
              log := st.log ++ ["Sent: " ++ photo, "Failed to send " ++ photo ++ ": " ++ e]
              sendCalls := st.sendCalls ++ [photo] }
        | none =>
            { store := mark_as_sent st.store photo
              log := st.log ++ ["Sent: " ++ photo]
              sendCalls := st.sendCalls ++ [photo] }

/-- The `for photo in photos:` loop of `sync_photos`, starting from table
contents `store0` with nothing yet printed or sent. -/
def sync_loop (transport : String → SendOutcome) (markOutcome : String → Option String)
    (store0 : List String) (photos : List String) : RunState :=
  photos.foldl (sync_step transport markOutcome) { store := store0, log := [], sendCalls := [] }

/-- `sync_photos()` (lines 114–137): `init_db`, discover, loop, `close`.
The result type `Except String RunState` records that an unhandled Python
exception would surface to the caller as an error; under the modelled
semantics none exists — discovery never raises (see `glob_sorted`) and the
blanket `except Exception` of the loop body contains every per-item failure — so the run
always completes and returns (Python returns `None`; the observable outcome
is the final durable table, the printed log, and the transport call trace). -/
def sync_photos (transport : String → SendOutcome) (markOutcome : String → Option String)
    (disk : Option (List String)) (dir : Option (List String)) : Except String RunState :=
  Except.ok (sync_loop transport markOutcome (init_db disk) (sync_discover dir))

/-! ### Basic lemmas about the store -/

theorem has_been_sent_iff {store : List String} {f : String} :
    has_been_sent store f = true ↔ f ∈ store := by
  simp [has_been_sent]

theorem has_been_sent_eq_false_iff {store : List String} {f : String} :
    has_been_sent store f = false ↔ f ∉ store := by
  simp [has_been_sent]

theorem mem_mark_as_sent {store : List String} {x f : String} :
    x ∈ mark_as_sent store f ↔ x ∈ store ∨ x = f := by
  unfold mark_as_sent
  by_cases h : f ∈ store
  · simp [h]
    intro hx
    rw [hx]
    exact h
  · simp [h]

theorem subset_mark_as_sent (store : List String) (f : String) :
    store ⊆ mark_as_sent store f := by
  intro x hx
  exact mem_mark_as_sent.mpr (Or.inl hx)

/-- C8: `mark_as_sent` is an idempotent insert: a second call with the same
filename is a no-op (the `INSERT OR IGNORE` finds the primary key present and
ignores the row), and it does not fail merely because the filename already
exists — in the model it is a total function, the `OR IGNORE` clause turning
the duplicate-key error into success. -/
theorem mark_as_sent_idempotent (store : List String) (f : String) :
    mark_as_sent (mark_as_sent store f) f = mark_as_sent store f := by
  have hmem : f ∈ mark_as_sent store f := mem_mark_as_sent.mpr (Or.inr rfl)
  unfold mark_as_sent
  simp only [List.contains_iff_exists_mem_beq, beq_iff_eq]
  rw [if_pos]
  exact ⟨f, by simpa [mark_as_sent] using hmem, rfl⟩

/-- C9: durability round-trip.  After `mark_as_sent` commits (its transaction
commits before the call returns), the rows survive `close` and a fresh
`init_db` (the `CREATE TABLE IF NOT EXISTS` keeps existing rows), and
`has_been_sent` then finds the recorded filename. -/
theorem record_durable (store : List String) (x : String) :
    has_been_sent (init_db (some (mark_as_sent store x))) x = true := by
  simp [init_db, has_been_sent_iff]
  exact mem_mark_as_sent.mpr (Or.inr rfl)

/-! ### Order properties of the modelled sort -/

theorem lex_le_total : ∀ (as bs : List Char), lex_le as bs = true ∨ lex_le bs as = true
  | [], _ => Or.inl rfl
  | _ :: _, [] => Or.inr rfl
  | a :: as, b :: bs => by
      rcases Nat.lt_trichotomy a.toNat b.toNat with h | h | h
      · exact Or.inl (by simp [lex_le, h])
      · have h2 : ¬ a.toNat < b.toNat := by omega
        have h3 : ¬ b.toNat < a.toNat := by omega
        rcases lex_le_total as bs with ih | ih
        · exact Or.inl (by simp [lex_le, h2, h3, ih])
        · exact Or.inr (by simp [lex_le, h2, h3, ih])
      · exact Or.inr (by simp [lex_le, h])

theorem lex_le_cons_iff {a b : Char} {as bs : List Char} :
    lex_le (a :: as) (b :: bs) = true ↔
      a.toNat < b.toNat ∨ (a.toNat = b.toNat ∧ lex_le as bs = true) := by
  simp only [lex_le]
  by_cases h1 : a.toNat < b.toNat
  · simp [h1]
  · by_cases h2 : b.toNat < a.toNat
    · simp only [if_neg h1, if_pos h2]
      refine iff_of_false (by simp) ?_
      rintro (h | ⟨h, _⟩) <;> omega
    · have he : a.toNat = b.toNat := by omega
      simp [h1, h2, he]

theorem lex_le_trans : ∀ (as bs cs : List Char),
    lex_le as bs = true → lex_le bs cs = true → lex_le as cs = true
  | [], _, _, _, _ => rfl
  | _ :: _, [], _, h, _ => absurd h (by simp [lex_le])
  | _ :: _, _ :: _, [], _, h => absurd h (by simp [lex_le])
  | a :: as, b :: bs, c :: cs, h1, h2 => by
      rw [lex_le_cons_iff] at h1 h2 ⊢
      rcases h1 with h1 | ⟨h1e, h1r⟩ <;> rcases h2 with h2 | ⟨h2e, h2r⟩
      · exact Or.inl (by omega)
      · exact Or.inl (by omega)
      · exact Or.inl (by omega)
      · exact Or.inr ⟨by omega, lex_le_trans as bs cs h1r h2r⟩

theorem str_le_total (a b : String) : str_le a b = true ∨ str_le b a = true :=
  lex_le_total a.data b.data

theorem str_le_trans {a b c : String} (h1 : str_le a b = true) (h2 : str_le b c = true) :
    str_le a c = true :=
  lex_le_trans a.data b.data c.data h1 h2

theorem mem_insert_sorted {x f : String} : ∀ {l : List String},
    x ∈ insert_sorted f l ↔ x = f ∨ x ∈ l
  | [] => by simp [insert_sorted]
  | g :: gs => by
      unfold insert_sorted
      by_cases h : str_le f g
      · simp [if_pos h, List.mem_cons]
      · simp only [if_neg h, List.mem_cons, mem_insert_sorted (l := gs)]
        tauto

theorem insert_sorted_perm (f : String) : ∀ (l : List String),
    (insert_sorted f l).Perm (f :: l)
  | [] => List.Perm.refl _
  | g :: gs => by
      unfold insert_sorted
      by_cases h : str_le f g
      · simp [h]
      · simp only [if_neg h]
        exact (List.Perm.cons g (insert_sorted_perm f gs)).trans (List.Perm.swap f g gs)

theorem sort_by_name_perm : ∀ (l : List String), (sort_by_name l).Perm l
  | [] => List.Perm.refl _
  | f :: fs => by
      simp only [sort_by_name, List.foldr_cons]
      exact (insert_sorted_perm f _).trans (List.Perm.cons f (sort_by_name_perm fs))

theorem pairwise_insert_sorted {f : String} : ∀ {l : List String},
    List.Pairwise (fun a b => str_le a b = true) l →
    List.Pairwise (fun a b => str_le a b = true) (insert_sorted f l)
  | [], _ => by simp [insert_sorted]
  | g :: gs, hp => by
      unfold insert_sorted
      rcases List.pairwise_cons.mp hp with ⟨hg, hgs⟩
      by_cases h : str_le f g = true
      · simp only [if_pos h]
        refine List.pairwise_cons.mpr ⟨?_, hp⟩
        intro x hx
        rcases List.mem_cons.mp hx with rfl | hx
        · exact h
        · exact str_le_trans h (hg x hx)
      · have hgf : str_le g f = true := by
          rcases str_le_total f g with h1 | h1
          · exact absurd h1 h
          · exact h1
        simp only [if_neg h]
        refine List.pairwise_cons.mpr ⟨?_, pairwise_insert_sorted hgs⟩
        intro x hx
        rcases mem_insert_sorted.mp hx with rfl | hx
        · exact hgf
        · exact hg x hx

theorem sort_by_name_pairwise : ∀ (l : List String),
    List.Pairwise (fun a b => str_le a b = true) (sort_by_name l)
  | [] => List.Pairwise.nil
  | f :: fs => by
      simp only [sort_by_name, List.foldr_cons]
      exact pairwise_insert_sorted (sort_by_name_pairwise fs)

/-! ### Discovery ordering (C6) -/

/-- Modelled from the words of the spec for comparison with the discovery of
the implementation: the files of one category, sorted lexicographically. -/
def category_sorted (files : List String) (ext : String) : List String :=
  sort_by_name (files.filter (fun f => ends_with f ext))

/-- The fixed category order of `sync_photos`: jpg, jpeg, png, gif, heic. -/
def extension_order : List String := [".jpg", ".jpeg", ".png", ".gif", ".heic"]

/-- Modelled from the words of the spec: the per-category sorted sequences,
concatenated in the fixed category order. -/
def spec_grouped_order (files : List String) : List String :=
  (extension_order.map (category_sorted files)).flatten

/-- C6: discovery produces, for every source directory, exactly the
concatenation in the fixed order [jpg, jpeg, png, gif, heic] of each
files of each category sorted lexicographically (each block is a permutation
of the files of that category and is sorted under the code-point order), and
on the example of the spec — b.jpg, a.jpg, z.png, m.png — the discovered order is
[a.jpg, b.jpg, m.png, z.png]. -/
theorem discovery_grouped_order (files : List String) :
    sync_discover (some files) = spec_grouped_order files
      ∧ (∀ ext, List.Pairwise (fun a b => str_le a b = true) (category_sorted files ext))
      ∧ (∀ ext, (category_sorted files ext).Perm
          (files.filter (fun f => ends_with f ext)))
      ∧ sync_discover (some ["b.jpg", "a.jpg", "z.png", "m.png"])
          = ["a.jpg", "b.jpg", "m.png", "z.png"] := by
  refine ⟨?_, fun ext => sort_by_name_pairwise _, fun ext => sort_by_name_perm _, by decide⟩
  simp [sync_discover, spec_grouped_order, extension_order, category_sorted, glob_sorted,
    List.append_assoc]

/-! ### Lemmas about one loop iteration -/

theorem sync_step_skip {t : String → SendOutcome} {m : String → Option String}
    {st : RunState} {photo : String} (h : has_been_sent st.store photo = true) :
    sync_step t m st photo = st := by
  simp [sync_step, h]

theorem sync_step_store_cases (t : String → SendOutcome) (m : String → Option String)
    (st : RunState) (photo : String) :
    (sync_step t m st photo).store = st.store
      ∨ (sync_step t m st photo).store = st.store ++ [photo] := by
  unfold sync_step
  cases h : has_been_sent st.store photo with
  | true => simp
  | false =>
      cases ht : t photo with
      | raised e => simp
      | delivered =>
          cases hm : m photo with
          | some e => simp
          | none =>
              have h2 : st.store.contains photo = false := h
              have h3 : photo ∉ st.store := by simpa using h2
              refine Or.inr ?_
              simp [mark_as_sent, h3]

theorem sync_step_store_mono (t : String → SendOutcome) (m : String → Option String)
    (st : RunState) (photo : String) :
    st.store ⊆ (sync_step t m st photo).store := by
  rcases sync_step_store_cases t m st photo with h | h
  · rw [h]
    exact fun _ hx => hx
  · rw [h]
    exact List.subset_append_left _ _

theorem sync_step_store_mem {t : String → SendOutcome} {m : String → Option String}
    {st : RunState} {photo x : String}
    (hx : x ∈ (sync_step t m st photo).store) :
    x ∈ st.store ∨ (x = photo ∧ has_been_sent st.store photo = false
      ∧ t photo = SendOutcome.delivered ∧ m photo = none) := by
  unfold sync_step at hx
  cases h : has_been_sent st.store photo with
  | true =>
      rw [h] at hx
      simp only [if_pos] at hx
      exact Or.inl hx
  | false =>
      rw [h] at hx
      simp only [Bool.false_eq_true, if_false] at hx
      cases ht : t photo with
      | raised e =>
          rw [ht] at hx
          exact Or.inl hx
      | delivered =>
          rw [ht] at hx
          cases hm : m photo with
          | some e =>
              rw [hm] at hx
              exact Or.inl hx
          | none =>
              rw [hm] at hx
              simp only at hx
              rcases mem_mark_as_sent.mp hx with h2 | h2
              · exact Or.inl h2
              · refine Or.inr ⟨h2, ?_, ?_, ?_⟩ <;> simp [h, ht, hm]

theorem sync_step_success_store {t : String → SendOutcome} {m : String → Option String}
    {st : RunState} {photo : String}
    (ht : t photo = SendOutcome.delivered) (hm : m photo = none) :
    photo ∈ (sync_step t m st photo).store := by
  unfold sync_step
  cases h : has_been_sent st.store photo with
  | true =>
      simp only [if_pos]
      exact has_been_sent_iff.mp h
  | false =>
      simp only [Bool.false_eq_true, if_false, ht, hm]
      exact mem_mark_as_sent.mpr (Or.inr rfl)

theorem sync_step_raised_store {t : String → SendOutcome} {m : String → Option String}
    {st : RunState} {photo : String} (e : String)
    (ht : t photo = SendOutcome.raised e) :
    (sync_step t m st photo).store = st.store := by
  unfold sync_step
  cases h : has_been_sent st.store photo with
  | true => simp
  | false => simp [ht]

theorem sync_step_store_not_mem {t : String → SendOutcome} {m : String → Option String}
    {st : RunState} {photo x : String}
    (hx : x ∉ st.store) (hxp : x ≠ photo) :
    x ∉ (sync_step t m st photo).store := by
  intro hmem
  rcases sync_step_store_mem hmem with h | ⟨h, _⟩
  · exact hx h
  · exact hxp h

theorem sync_step_calls (t : String → SendOutcome) (m : String → Option String)
    (st : RunState) (photo : String) :
    (sync_step t m st photo).sendCalls = st.sendCalls
      ∨ (sync_step t m st photo).sendCalls = st.sendCalls ++ [photo] := by
  unfold sync_step
  cases h : has_been_sent st.store photo with
  | true => simp
  | false =>
      cases ht : t photo with
      | raised e => simp
      | delivered => cases hm : m photo <;> simp

theorem sync_step_calls_mono (t : String → SendOutcome) (m : String → Option String)
    (st : RunState) (photo : String) :
    st.sendCalls ⊆ (sync_step t m st photo).sendCalls := by
  rcases sync_step_calls t m st photo with h | h
  · rw [h]
    exact fun _ hx => hx
  · rw [h]
    exact List.subset_append_left _ _

theorem sync_step_attempt_calls {t : String → SendOutcome} {m : String → Option String}
    {st : RunState} {photo : String}
    (h : has_been_sent st.store photo = false) :
    (sync_step t m st photo).sendCalls = st.sendCalls ++ [photo] := by
  unfold sync_step
  rw [h]
  simp only [Bool.false_eq_true, if_false]
  cases ht : t photo with
  | raised e => rfl
  | delivered => cases hm : m photo <;> rfl

/-! ### Lemmas about the whole loop -/

theorem foldl_store_mono (t : String → SendOutcome) (m : String → Option String) :
    ∀ (photos : List String) (st : RunState),
      st.store ⊆ (photos.foldl (sync_step t m) st).store
  | [], _ => fun _ hx => hx
  | p :: ps, st => by
      simp only [List.foldl_cons]
      exact (sync_step_store_mono t m st p).trans (foldl_store_mono t m ps (sync_step t m st p))

theorem foldl_calls_mono (t : String → SendOutcome) (m : String → Option String) :
    ∀ (photos : List String) (st : RunState),
      st.sendCalls ⊆ (photos.foldl (sync_step t m) st).sendCalls
  | [], _ => fun _ hx => hx
  | p :: ps, st => by
      simp only [List.foldl_cons]
      exact (sync_step_calls_mono t m st p).trans (foldl_calls_mono t m ps (sync_step t m st p))

theorem foldl_keeps_sent (t : String → SendOutcome) (m : String → Option String) (x : String) :
    ∀ (photos : List String) (st : RunState),
      x ∈ st.store → x ∉ st.sendCalls →
      x ∈ (photos.foldl (sync_step t m) st).store
        ∧ x ∉ (photos.foldl (sync_step t m) st).sendCalls
  | [], _, h1, h2 => ⟨h1, h2⟩
  | p :: ps, st, h1, h2 => by
      simp only [List.foldl_cons]
      apply foldl_keeps_sent t m x ps
      · exact sync_step_store_mono t m st p h1
      · by_cases hp : p = x
        · subst hp
          rw [sync_step_skip (has_been_sent_iff.mpr h1)]
          exact h2
        · rcases sync_step_calls t m st p with hc | hc
          · rw [hc]
            exact h2
          · rw [hc]
            intro hmem
            rcases List.mem_append.mp hmem with hmem | hmem
            · exact h2 hmem
            · exact hp (List.mem_singleton.mp hmem).symm

theorem foldl_all_handled (t : String → SendOutcome) (m : String → Option String) :
    ∀ (photos : List String) (st : RunState), ∀ f ∈ photos,
      f ∈ (photos.foldl (sync_step t m) st).sendCalls
        ∨ f ∈ (photos.foldl (sync_step t m) st).store
  | p :: ps, st, f, hf => by
      simp only [List.foldl_cons]
      rcases List.mem_cons.mp hf with rfl | hf
      · cases h : has_been_sent st.store f with
        | false =>
            exact Or.inl (foldl_calls_mono t m ps _
              (by rw [sync_step_attempt_calls h]; exact List.mem_append_right _ (by simp)))
        | true =>
            exact Or.inr (foldl_store_mono t m ps _
              (sync_step_store_mono t m st f (has_been_sent_iff.mp h)))
      · exact foldl_all_handled t m ps (sync_step t m st p) f hf
  | [], _, f, hf => absurd hf (List.not_mem_nil f)

theorem sync_step_mark_raised_store {t : String → SendOutcome} {m : String → Option String}
    {st : RunState} {photo : String} (e : String)
    (hm : m photo = some e) :
    (sync_step t m st photo).store = st.store := by
  unfold sync_step
  cases h : has_been_sent st.store photo with
  | true => simp
  | false =>
      cases ht : t photo with
      | raised e2 => simp
      | delivered => simp [hm]

/-! ### Concrete oracles used in witnesses and counterexamples -/

/-- Transport behaviour that delivers every item. -/
def t_all : String → SendOutcome := fun _ => SendOutcome.delivered

/-- Transport behaviour that raises on every item. -/
def t_raise : String → SendOutcome := fun _ => SendOutcome.raised "boom"

/-- Transport behaviour that raises exactly on `b.jpg`. -/
def t_fail_b : String → SendOutcome :=
  fun f => if f = "b.jpg" then SendOutcome.raised "boom" else SendOutcome.delivered

/-- Recording behaviour whose `INSERT` always commits. -/
def m_ok : String → Option String := fun _ => none

/-! ### The claims -/

/-- C1: at-most-once delivery.  Once a filename is a row of `sent_photos`,
a run of `sync_photos` never passes it to `send_photo_via_email` again —
whatever the transport and recording behaviour and however often the
filename reappears in discovery.  The row is moreover still present at the
end of the run, so the same argument applies to every subsequent run. -/
theorem at_most_once (t : String → SendOutcome) (m : String → Option String)
    (rows : List String) (dir : Option (List String)) (x : String) (st : RunState)
    (hx : x ∈ rows)
    (hrun : sync_photos t m (some rows) dir = Except.ok st) :
    x ∉ st.sendCalls ∧ x ∈ st.store := by
  unfold sync_photos at hrun
  injection hrun with h
  subst h
  have h2 := foldl_keeps_sent t m x (sync_discover dir)
      (RunState.mk (init_db (some rows)) [] []) hx (by simp)
  exact ⟨h2.2, h2.1⟩

/-- Witness for C1 at a concrete input. -/
theorem at_most_once_witness :
    ("a.jpg" ∈ ["a.jpg"]
      ∧ sync_photos t_all m_ok (some ["a.jpg"]) (some ["a.jpg", "b.jpg"])
          = Except.ok (RunState.mk ["a.jpg", "b.jpg"] ["Sent: b.jpg"] ["b.jpg"]))
    ∧ ("a.jpg" ∉ (RunState.mk ["a.jpg", "b.jpg"] ["Sent: b.jpg"] ["b.jpg"]).sendCalls
        ∧ "a.jpg" ∈ (RunState.mk ["a.jpg", "b.jpg"] ["Sent: b.jpg"] ["b.jpg"]).store) :=
  ⟨⟨by decide, rfl⟩,
    at_most_once t_all m_ok ["a.jpg"] (some ["a.jpg", "b.jpg"]) "a.jpg"
      (RunState.mk ["a.jpg", "b.jpg"] ["Sent: b.jpg"] ["b.jpg"]) (by decide) rfl⟩

/-- C7: the DeliveryRecord invariant at every operation of a run: the
`sent_photos` table only grows — no loop iteration removes a row — and a
new row appears only for the photo of the iteration, only when it was not
yet recorded, `send_photo_via_email` succeeded for it, and the `INSERT`
committed; never for a skipped or deferred item. -/
theorem store_monotone_success_only (t : String → SendOutcome) (m : String → Option String)
    (st : RunState) (photo x : String)
    (hx : x ∈ (sync_step t m st photo).store) :
    st.store ⊆ (sync_step t m st photo).store
      ∧ (x ∈ st.store ∨ (x = photo ∧ has_been_sent st.store photo = false
          ∧ t photo = SendOutcome.delivered ∧ m photo = none)) :=
  ⟨sync_step_store_mono t m st photo, sync_step_store_mem hx⟩

/-- Witness for C7 at a concrete input. -/
theorem store_monotone_success_only_witness :
    ("a.jpg" ∈ (sync_step t_all m_ok (RunState.mk [] [] []) "a.jpg").store)
    ∧ ((RunState.mk [] [] []).store ⊆ (sync_step t_all m_ok (RunState.mk [] [] []) "a.jpg").store
        ∧ ("a.jpg" ∈ (RunState.mk [] [] []).store
            ∨ ("a.jpg" = "a.jpg" ∧ has_been_sent (RunState.mk [] [] []).store "a.jpg" = false
               ∧ t_all "a.jpg" = SendOutcome.delivered ∧ m_ok "a.jpg" = none))) :=
  ⟨by decide,
    store_monotone_success_only t_all m_ok (RunState.mk [] [] []) "a.jpg" "a.jpg" (by decide)⟩

/-- C2: failure isolation.  When discovery yields `[a, b, c]` and only the
delivery of `b` raises, the run still completes and returns, `a` and `c` are rows
of `sent_photos` afterwards, and `b` is not — so `b` is attempted again on a
later run. -/
theorem failure_isolation (t : String → SendOutcome) (m : String → Option String)
    (rows : List String) (dir : Option (List String)) (a b c e : String)
    (hdisc : sync_discover dir = [a, b, c])
    (ha : t a = SendOutcome.delivered) (hma : m a = none)
    (hb : t b = SendOutcome.raised e)
    (hc : t c = SendOutcome.delivered) (hmc : m c = none)
    (hbrows : b ∉ rows) :
    ∃ st, sync_photos t m (some rows) dir = Except.ok st
      ∧ a ∈ st.store ∧ c ∈ st.store ∧ b ∉ st.store := by
  have hab : a ≠ b := by
    intro hh
    rw [hh, hb] at ha
    cases ha
  have hcb : c ≠ b := by
    intro hh
    rw [hh, hb] at hc
    cases hc
  refine ⟨sync_loop t m (init_db (some rows)) (sync_discover dir), rfl, ?_⟩
  rw [hdisc]
  unfold sync_loop
  simp only [List.foldl_cons, List.foldl_nil]
  have hA1 : a ∈ (sync_step t m (RunState.mk (init_db (some rows)) [] []) a).store :=
    sync_step_success_store ha hma
  have hB1 : b ∉ (sync_step t m (RunState.mk (init_db (some rows)) [] []) a).store :=
    sync_step_store_not_mem hbrows (Ne.symm hab)
  have hs2 : (sync_step t m (sync_step t m (RunState.mk (init_db (some rows)) [] []) a) b).store
      = (sync_step t m (RunState.mk (init_db (some rows)) [] []) a).store :=
    sync_step_raised_store e hb
  have hA2 : a ∈ (sync_step t m (sync_step t m (RunState.mk (init_db (some rows)) [] []) a) b).store := by
    rw [hs2]
    exact hA1
  have hB2 : b ∉ (sync_step t m (sync_step t m (RunState.mk (init_db (some rows)) [] []) a) b).store := by
    rw [hs2]
    exact hB1
  exact ⟨sync_step_store_mono t m _ c hA2, sync_step_success_store hc hmc,
    sync_step_store_not_mem hB2 (Ne.symm hcb)⟩

/-- Witness for C2 at a concrete input. -/
theorem failure_isolation_witness :
    (sync_discover (some ["a.jpg", "b.jpg", "c.jpg"]) = ["a.jpg", "b.jpg", "c.jpg"]
      ∧ t_fail_b "a.jpg" = SendOutcome.delivered ∧ m_ok "a.jpg" = none
      ∧ t_fail_b "b.jpg" = SendOutcome.raised "boom"
      ∧ t_fail_b "c.jpg" = SendOutcome.delivered ∧ m_ok "c.jpg" = none
      ∧ "b.jpg" ∉ ([] : List String))
    ∧ (∃ st, sync_photos t_fail_b m_ok (some []) (some ["a.jpg", "b.jpg", "c.jpg"]) = Except.ok st
        ∧ "a.jpg" ∈ st.store ∧ "c.jpg" ∈ st.store ∧ "b.jpg" ∉ st.store) :=
  ⟨⟨by decide, by decide, rfl, by decide, by decide, rfl, by decide⟩,
    failure_isolation t_fail_b m_ok [] (some ["a.jpg", "b.jpg", "c.jpg"])
      "a.jpg" "b.jpg" "c.jpg" "boom"
      (by decide) (by decide) rfl (by decide) (by decide) rfl (by decide)⟩

/-- C10: blanket per-item containment with error atomicity.  Any exception
raised while sending an item or while recording it — a raising transport,
or a raising `INSERT` after a successful send — leaves the `sent_photos`
table unchanged for that item (the failed transaction rolls back); the run
returns normally for every oracle behaviour (the `except Exception` inside
the loop body catches everything); and iteration reaches every discovered
item: each one is passed to the transport or is already recorded. -/
theorem blanket_containment (t : String → SendOutcome) (m : String → Option String)
    (st : RunState) (photo : String)
    (hfail : t photo ≠ SendOutcome.delivered ∨ m photo ≠ none) :
    (sync_step t m st photo).store = st.store
      ∧ (∀ disk dir, ∃ stf, sync_photos t m disk dir = Except.ok stf)
      ∧ (∀ (photos s0 : List String), ∀ f ∈ photos,
          f ∈ (sync_loop t m s0 photos).sendCalls ∨ f ∈ (sync_loop t m s0 photos).store) := by
  refine ⟨?_, fun disk dir => ⟨_, rfl⟩,
    fun photos s0 f hf => foldl_all_handled t m photos _ f hf⟩
  cases h : has_been_sent st.store photo with
  | true => rw [sync_step_skip h]
  | false =>
      cases ht : t photo with
      | raised e => exact sync_step_raised_store e ht
      | delivered =>
          rcases hfail with hfail | hfail
          · exact absurd ht hfail
          · cases hm : m photo with
            | none => exact absurd hm hfail
            | some e => exact sync_step_mark_raised_store e hm

/-- Witness for C10 at a concrete input. -/
theorem blanket_containment_witness :
    (t_raise "b.jpg" ≠ SendOutcome.delivered ∨ m_ok "b.jpg" ≠ none)
    ∧ ((sync_step t_raise m_ok (RunState.mk [] [] []) "b.jpg").store
          = (RunState.mk [] [] []).store
        ∧ (∀ disk dir, ∃ stf, sync_photos t_raise m_ok disk dir = Except.ok stf)
        ∧ (∀ (photos s0 : List String), ∀ f ∈ photos,
            f ∈ (sync_loop t_raise m_ok s0 photos).sendCalls
              ∨ f ∈ (sync_loop t_raise m_ok s0 photos).store)) :=
  ⟨Or.inl (by decide),
    blanket_containment t_raise m_ok (RunState.mk [] [] []) "b.jpg" (Or.inl (by decide))⟩

/-! ### Idempotence of a run (C3) -/

theorem foldl_no_calls (t : String → SendOutcome) (m : String → Option String) :
    ∀ (photos : List String) (st : RunState),
      (∀ f ∈ photos, f ∈ st.store) →
      photos.foldl (sync_step t m) st = st
  | [], _, _ => rfl
  | p :: ps, st, h => by
      simp only [List.foldl_cons]
      rw [sync_step_skip (has_been_sent_iff.mpr (h p (by simp)))]
      exact foldl_no_calls t m ps st (fun f hf => h f (by simp [hf]))

/-- C3 fails as stated: with the transport raising on `b.jpg`, the first run
from an empty store defers `b.jpg` (store unchanged, so the Dedup Store
before the second run equals the one before the first), and the second run —
identical inputs — passes `b.jpg` to `send_photo_via_email` again: its call
trace is `[b.jpg]`, not empty. -/
theorem idempotence_cex :
    sync_photos t_raise m_ok (some []) (some ["b.jpg"])
        = Except.ok (RunState.mk [] ["Failed to send b.jpg: boom"] ["b.jpg"])
    ∧ sync_photos t_raise m_ok
        (some ((RunState.mk [] ["Failed to send b.jpg: boom"] ["b.jpg"]).store))
        (some ["b.jpg"])
        = Except.ok (RunState.mk [] ["Failed to send b.jpg: boom"] ["b.jpg"])
    ∧ (RunState.mk [] ["Failed to send b.jpg: boom"] ["b.jpg"]).sendCalls ≠ [] :=
  ⟨rfl, rfl, by decide⟩

/-- C3 (amended): if every item discovered in the first run is recorded in
the Dedup Store when it ends — i.e. no delivery failed — then a second run
against the unchanged source directory and the store left by the first run
performs zero transport invocations, prints nothing, and changes nothing,
whatever transport behaviour the second run meets. -/
theorem second_run_no_deliveries (t t2 : String → SendOutcome) (m m2 : String → Option String)
    (disk dir : Option (List String)) (st : RunState)
    (_hrun : sync_photos t m disk dir = Except.ok st)
    (hall : ∀ f ∈ sync_discover dir, f ∈ st.store) :
    sync_photos t2 m2 (some st.store) dir = Except.ok (RunState.mk st.store [] []) := by
  unfold sync_photos
  exact congrArg Except.ok
    (foldl_no_calls t2 m2 (sync_discover dir) (RunState.mk st.store [] []) hall)

/-- Witness for the amended C3 at a concrete input. -/
theorem second_run_no_deliveries_witness :
    (sync_photos t_all m_ok (some []) (some ["a.jpg"])
        = Except.ok (RunState.mk ["a.jpg"] ["Sent: a.jpg"] ["a.jpg"])
      ∧ ∀ f ∈ sync_discover (some ["a.jpg"]),
          f ∈ (RunState.mk ["a.jpg"] ["Sent: a.jpg"] ["a.jpg"]).store)
    ∧ sync_photos t_raise m_ok
        (some (RunState.mk ["a.jpg"] ["Sent: a.jpg"] ["a.jpg"]).store) (some ["a.jpg"])
        = Except.ok (RunState.mk (RunState.mk ["a.jpg"] ["Sent: a.jpg"] ["a.jpg"]).store [] []) :=
  ⟨⟨rfl, by decide⟩,
    second_run_no_deliveries t_all t_raise m_ok m_ok (some []) (some ["a.jpg"])
      (RunState.mk ["a.jpg"] ["Sent: a.jpg"] ["a.jpg"]) rfl (by decide)⟩

/-! ### Missing source directory (C4) -/

/-- C4 fails as stated: pointing the run at a nonexistent (or unreadable)
source directory does not abort it with any error — `Path.glob` simply
yields no entries — so the run completes normally with an `ok` result,
zero transport invocations, nothing printed, and the store untouched. -/
theorem missing_source_cex :
    sync_photos t_all m_ok (some ["old.jpg"]) none
        = Except.ok (RunState.mk ["old.jpg"] [] [])
    ∧ (sync_photos t_all m_ok (some ["old.jpg"]) none).isOk = true :=
  ⟨rfl, rfl⟩

/-- C4 (amended): when the source directory does not exist or is not
readable, discovery yields the empty sequence and the run completes
normally — no `DiscoveryError` abort exists in the code — with zero
delivery attempts, an empty log, and the Dedup Store left exactly as
`init_db` found it. -/
theorem missing_source_empty_run (t : String → SendOutcome) (m : String → Option String)
    (disk : Option (List String)) :
    sync_photos t m disk none = Except.ok (RunState.mk (init_db disk) [] []) := rfl

/-! ### Run outcome surface (C5) -/

/-- Number of skipped (already-recorded) items of a run: discovered items
that were never passed to the transport. -/
def skipped_count (photos : List String) (st : RunState) : Nat :=
  photos.length - st.sendCalls.length

/-- The lines `sync_photos` prints for one transport call on `photo`:
`send_photo_via_email` prints `Sent: ...` with the filename after a successful send, and
the `except` clause prints a `Failed to send ...` line with the filename and message when the send or
the subsequent `INSERT` raises. -/
def item_log_lines (t : String → SendOutcome) (m : String → Option String)
    (photo : String) : List String :=
  match t photo with
  | SendOutcome.raised e => ["Failed to send " ++ photo ++ ": " ++ e]
  | SendOutcome.delivered =>
      match m photo with
      | some e => ["Sent: " ++ photo, "Failed to send " ++ photo ++ ": " ++ e]
      | none => ["Sent: " ++ photo]

theorem sync_step_log_invariant (t : String → SendOutcome) (m : String → Option String)
    (st : RunState) (photo : String)
    (h : st.log = (st.sendCalls.map (item_log_lines t m)).flatten) :
    (sync_step t m st photo).log
      = ((sync_step t m st photo).sendCalls.map (item_log_lines t m)).flatten := by
  unfold sync_step
  cases hb : has_been_sent st.store photo with
  | true => simpa using h
  | false =>
      cases ht : t photo with
      | raised e => simp [h, item_log_lines, ht]
      | delivered =>
          cases hm : m photo with
          | some e => simp [h, item_log_lines, ht, hm]
          | none => simp [h, item_log_lines, ht, hm]

theorem foldl_log_lines (t : String → SendOutcome) (m : String → Option String) :
    ∀ (photos : List String) (st : RunState),
      st.log = (st.sendCalls.map (item_log_lines t m)).flatten →
      (photos.foldl (sync_step t m) st).log
        = ((photos.foldl (sync_step t m) st).sendCalls.map (item_log_lines t m)).flatten
  | [], _, h => h
  | p :: ps, st, h => by
      simp only [List.foldl_cons]
      exact foldl_log_lines t m ps _ (sync_step_log_invariant t m st p h)

/-- C5 fails as stated: `sync_photos` returns `None` to its caller; the only
caller-visible outcome of a completed run is what it prints.  Two runs with
different numbers of skipped items (0 below on an empty directory, 1 below
when the single discovered file is already recorded) print exactly the same
(nothing), so no function of the output of a run recovers the skipped count —
no summary containing the counts of Recorded / Skipped / Deferred is
returned. -/
theorem run_summary_cex :
    (sync_photos t_all m_ok (some []) (some []) = Except.ok (RunState.mk [] [] [])
      ∧ sync_photos t_all m_ok (some ["a.jpg"]) (some ["a.jpg"])
          = Except.ok (RunState.mk ["a.jpg"] [] []))
    ∧ skipped_count (sync_discover (some [])) (RunState.mk [] [] []) = 0
    ∧ skipped_count (sync_discover (some ["a.jpg"])) (RunState.mk ["a.jpg"] [] []) = 1
    ∧ (RunState.mk [] [] []).log = (RunState.mk ["a.jpg"] [] []).log
    ∧ ¬ ∃ g : List String → Nat,
        g (RunState.mk [] [] []).log = 0 ∧ g (RunState.mk ["a.jpg"] [] []).log = 1 := by
  refine ⟨⟨rfl, rfl⟩, by decide, by decide, rfl, ?_⟩
  rintro ⟨g, h0, h1⟩
  rw [h0] at h1
  cases h1

/-- C5 (amended): the run returns no summary value; its caller-visible
report is the printed log, which is exactly one `Sent: X` line per
successful transport send and one `Failed to send X: e` line per raising
item, in call order — so the identities delivered and the identities and
causes of failures (hence their counts) are recoverable from the output,
while the skipped count is not reported. -/
theorem run_output_surface (t : String → SendOutcome) (m : String → Option String)
    (disk dir : Option (List String)) (st : RunState)
    (hrun : sync_photos t m disk dir = Except.ok st) :
    st.log = (st.sendCalls.map (item_log_lines t m)).flatten := by
  unfold sync_photos at hrun
  injection hrun with h
  subst h
  exact foldl_log_lines t m (sync_discover dir) (RunState.mk (init_db disk) [] []) rfl

/-- Witness for the amended C5 at a concrete input. -/
theorem run_output_surface_witness :
    sync_photos t_fail_b m_ok (some []) (some ["a.jpg", "b.jpg"])
        = Except.ok (RunState.mk ["a.jpg"] ["Sent: a.jpg", "Failed to send b.jpg: boom"]
            ["a.jpg", "b.jpg"])
    ∧ (RunState.mk ["a.jpg"] ["Sent: a.jpg", "Failed to send b.jpg: boom"]
          ["a.jpg", "b.jpg"]).log
        = ((RunState.mk ["a.jpg"] ["Sent: a.jpg", "Failed to send b.jpg: boom"]
            ["a.jpg", "b.jpg"]).sendCalls.map (item_log_lines t_fail_b m_ok)).flatten :=
  ⟨rfl,
    run_output_surface t_fail_b m_ok (some []) (some ["a.jpg", "b.jpg"])
      (RunState.mk ["a.jpg"] ["Sent: a.jpg", "Failed to send b.jpg: boom"]
        ["a.jpg", "b.jpg"]) rfl⟩

end PhotoSync
